import Mathlib

/-!
Verification development for the SQLer document-persistence engine.

The Lean definitions below are a shallow embedding of the Python sources:

* `src/sqler/query/expression.py` — the expression algebra;
* `src/sqler/query/query.py`      — the chainable query builder;
* `src/sqler/query/field.py`      — the JSON-path field proxy and the
  `any()` EXISTS/JOIN compiler;
* `src/sqler/db/sqler_db.py`      — the document store (`upsert_document`,
  `bulk_upsert`, `find_document`);
* `src/sqler/models/model.py`     — reference detection and resolution
  (`_is_ref_dict`, `_resolve_relations`, `from_id`);
* `src/sqler/models/safe.py`      — the optimistic-locking save protocol.

Python dicts are represented as association lists (`Obj`), JSON values as
the inductive `JValue`, and the SQLite engine state as explicit tables.
-/

namespace SQLer

/-- JSON values as stored inside a document payload.  Objects are ordered
association lists, matching Python dict insertion order. -/
inductive JValue where
  | null : JValue
  | bool (b : Bool) : JValue
  | int (i : Int) : JValue
  | str (s : String) : JValue
  | arr (xs : List JValue) : JValue
  | obj (kvs : List (String × JValue)) : JValue
deriving Inhabited

/-- A Python dict with string keys: an ordered association list. -/
abbrev Obj := List (String × JValue)

/-- First-match lookup, the semantics of Python `dict.get` (dict keys are
unique, so first match is the only match). -/
def objGet (kvs : Obj) (k : String) : Option JValue :=
  (kvs.find? (fun p => p.1 = k)).map (·.2)

/-- Python `d[k] = v`: overwrite the existing entry for `k`, or append a
new entry at the end. -/
def objSet (kvs : Obj) (k : String) (v : JValue) : Obj :=
  if (kvs.find? (fun p => p.1 = k)).isSome then
    kvs.map (fun p => if p.1 = k then (k, v) else p)
  else
    kvs ++ [(k, v)]

/-- Python `k in d`: key membership. -/
def objHasKey (kvs : Obj) (k : String) : Bool :=
  kvs.any (fun p => p.1 = k)

/-! ## Expression algebra — `src/sqler/query/expression.py` -/

/-- `SQLerExpression`: a SQL fragment paired with its ordered parameter
list (`__init__` stores `sql` and `params or []`). -/
structure SQLerExpression where
  sql : String
  params : List JValue
deriving Inhabited

namespace SQLerExpression

/-- `__and__`: combine two expressions with AND; params concatenated. -/
def andE (a b : SQLerExpression) : SQLerExpression :=
  ⟨"(" ++ a.sql ++ ") AND (" ++ b.sql ++ ")", a.params ++ b.params⟩

/-- Modelled from the spec: `__or__` is absent from
`src/sqler/query/expression.py` in this snapshot (the file ends after
`__and__`), while callers and the spec use it.  Spec §4.3:
`a OR b` yields `(a) OR (b)` with params `a.params ++ b.params`. -/
def orE (a b : SQLerExpression) : SQLerExpression :=
  ⟨"(" ++ a.sql ++ ") OR (" ++ b.sql ++ ")", a.params ++ b.params⟩

/-- Modelled from the spec: `__invert__` is absent from
`src/sqler/query/expression.py` in this snapshot, while
`SQLerQuery.exclude` applies `~expression`.  Spec §4.3: `NOT a` yields
`NOT (a)` with params `a.params`. -/
def notE (a : SQLerExpression) : SQLerExpression :=
  ⟨"NOT (" ++ a.sql ++ ")", a.params⟩

end SQLerExpression

/-! ## Query builder — `src/sqler/query/query.py` -/

/-- Tokenizer for Python `str.split()` with no argument: maximal runs of
non-whitespace characters, leading/trailing whitespace dropped.  `cur`
accumulates the current token in reverse. -/
def splitWsAux (cur : List Char) : List Char → List (List Char)
  | [] => if cur.isEmpty then [] else [cur.reverse]
  | c :: cs =>
    if c.isWhitespace then
      if cur.isEmpty then splitWsAux [] cs
      else cur.reverse :: splitWsAux [] cs
    else splitWsAux (c :: cur) cs

/-- Python `" ".join(s.split())`: split on whitespace runs and re-join
with single spaces (the `# collapse double spaces` step of
`_build_query`; the preceding `.strip()` of the source is subsumed, since
`split()` already drops leading and trailing whitespace). -/
def pyJoinWs (s : String) : String :=
  " ".intercalate ((splitWsAux [] s.toList).map (fun cs => String.mk cs))

/-- `SQLerQuery` state: table name, optional adapter handle (represented
by `Option Unit`), optional expression, optional order field, descending
flag, optional limit. -/
structure SQLerQuery where
  table : String
  adapter : Option Unit
  expression : Option SQLerExpression
  order : Option String
  desc : Bool
  limit : Option Nat

instance : Inhabited SQLerQuery := ⟨⟨"", none, none, none, false, none⟩⟩

namespace SQLerQuery

/-- `filter`: returns a new query with the expression ANDed in. -/
def filter (q : SQLerQuery) (e : SQLerExpression) : SQLerQuery :=
  let newExpression :=
    match q.expression with
    | none => e
    | some old => old.andE e
  ⟨q.table, q.adapter, some newExpression, q.order, q.desc, q.limit⟩

/-- `exclude`: returns a new query with the NOT-expression ANDed in. -/
def exclude (q : SQLerQuery) (e : SQLerExpression) : SQLerQuery :=
  let notExpr := e.notE
  let newExpression :=
    match q.expression with
    | none => notExpr
    | some old => old.andE notExpr
  ⟨q.table, q.adapter, some newExpression, q.order, q.desc, q.limit⟩

/-- `order_by`: returns a new query ordered by the field. -/
def orderBy (q : SQLerQuery) (field : String) (desc : Bool) : SQLerQuery :=
  ⟨q.table, q.adapter, q.expression, some field, desc, q.limit⟩

/-- `limit`: returns a new query limited to `n` results. -/
def limitTo (q : SQLerQuery) (n : Nat) : SQLerQuery :=
  ⟨q.table, q.adapter, q.expression, q.order, q.desc, some n⟩

/-- `_build_query`: builds the SELECT statement and the parameter list. -/
def buildQuery (q : SQLerQuery) (includeId : Bool) : String × List JValue :=
  let whereS :=
    match q.expression with
    | some e => "WHERE " ++ e.sql
    | none => ""
  let orderS :=
    match q.order with
    | some f =>
        "ORDER BY json_extract(data, '$." ++ f ++ "')"
          ++ (if q.desc then " DESC" else "")
    | none => ""
  let limitS :=
    match q.limit with
    | some n => "LIMIT " ++ toString n
    | none => ""
  let select := if includeId then "_id, data" else "data"
  let raw :=
    "SELECT " ++ select ++ " FROM " ++ q.table ++ " " ++ whereS ++ " "
      ++ orderS ++ " " ++ limitS
  let sqlS := pyJoinWs raw
  let paramsS :=
    match q.expression with
    | some e => e.params
    | none => []
  (sqlS, paramsS)

/-- `sql` property: the current SELECT SQL. -/
def sqlOf (q : SQLerQuery) : String := (q.buildQuery false).1

/-- `params` property: the current parameter list. -/
def paramsOf (q : SQLerQuery) : List JValue := (q.buildQuery false).2

end SQLerQuery

/-! Object-identity model for the purity claim: the Python heap of query
builders is a list of builder states; a method call reads the receiver,
allocates the freshly constructed builder at the end of the heap, and
returns its index.  This mirrors `return self.__class__(...)`, which never
assigns to the receiver's attributes. -/

/-- Heap step for `filter`: allocate the new builder, return its index. -/
def filterH (σ : List SQLerQuery) (i : Nat) (e : SQLerExpression) :
    List SQLerQuery × Nat :=
  (σ ++ [(σ.getD i default).filter e], σ.length)

/-- Heap step for `exclude`. -/
def excludeH (σ : List SQLerQuery) (i : Nat) (e : SQLerExpression) :
    List SQLerQuery × Nat :=
  (σ ++ [(σ.getD i default).exclude e], σ.length)

/-- Heap step for `order_by`. -/
def orderByH (σ : List SQLerQuery) (i : Nat) (f : String) (d : Bool) :
    List SQLerQuery × Nat :=
  (σ ++ [(σ.getD i default).orderBy f d], σ.length)

/-- Heap step for `limit`. -/
def limitH (σ : List SQLerQuery) (i : Nat) (n : Nat) :
    List SQLerQuery × Nat :=
  (σ ++ [(σ.getD i default).limitTo n], σ.length)

/-! ## Field proxy — `src/sqler/query/field.py` -/

/-- A path segment: a string key or an integer array index
(Python `Union[str, int]`). -/
inductive Seg where
  | key (s : String) : Seg
  | idx (n : Int) : Seg
deriving DecidableEq, Repr, Inhabited

/-- Python `f"{p}"` on a path segment (`str` of a string or an int), as
used by `SQLerAnyExpression` when rendering path pieces. -/
def segRaw : Seg → String
  | .key s => s
  | .idx n => toString n

/-- The `needs_quoting` test of `_json_path`, negated: Python
`re.match(r"^[A-Za-z_][A-Za-z0-9_]*$", s)`. -/
def identOk (s : String) : Bool :=
  match s.toList with
  | [] => false
  | c :: cs =>
      (c.isAlpha || c = '_') && cs.all (fun d => d.isAlphanum || d = '_')

/-- Python `segment.replace('"', '\\"')`. -/
def escapeQuotes (s : String) : String :=
  s.replace "\"" "\\\""

/-- `_json_path`: `$`, then `[n]` for indices, `.key` for identifier-safe
keys, `."escaped"` otherwise. -/
def jsonPathOf (path : List Seg) : String :=
  "$" ++ String.join (path.map (fun seg =>
    match seg with
    | .idx n => "[" ++ toString n ++ "]"
    | .key s =>
        if identOk s then "." ++ s
        else "." ++ "\"" ++ escapeQuotes s ++ "\""))

/-- `SQLerField`: a JSON path plus the `(alias, array_field)` stack pushed
by each `any()` in the chain. -/
structure SQLerField where
  path : List Seg
  aliasStack : List (String × Seg)
deriving DecidableEq, Repr

namespace SQLerField

/-- `any()`: allocate the alias `chr(ord('a') + len(alias_stack))` for the
last path segment and push it; `none` models the `IndexError` that
`self.path[-1]` raises on an empty path. -/
def anyM (f : SQLerField) : Option SQLerField :=
  f.path.getLast?.map (fun fld =>
    ⟨f.path,
     f.aliasStack
       ++ [(String.singleton (Char.ofNat (97 + f.aliasStack.length)), fld)]⟩)

/-- `__getitem__` / `__truediv__`: go one key or index deeper. -/
def getItem (f : SQLerField) (s : Seg) : SQLerField :=
  ⟨f.path ++ [s], f.aliasStack⟩

end SQLerField

/-- Python `sep.join(xs)`. -/
def pyJoinList (sep : String) : List String → String
  | [] => ""
  | [x] => x
  | x :: y :: tl => x ++ sep ++ pyJoinList sep (y :: tl)

/-- One JOIN clause of `SQLerAnyExpression`:
`json_each(json_extract(<prev>.value, '$.<key>')) AS <alias>`. -/
def joinClause (prev : String) (k : Seg) (al : String) : String :=
  "json_each(json_extract(" ++ prev ++ ".value, '$." ++ segRaw k
    ++ "')) AS " ++ al

/-- The JOIN list built by `SQLerAnyExpression.__init__`'s loop over
`alias_stack[1:]`, threading the previous alias. -/
def restJoins : String → List (String × Seg) → List String
  | _, [] => []
  | prev, (al, k) :: tl => joinClause prev k al :: restJoins al tl

/-- The alias left in `prev_alias` after the JOIN loop: the last pushed
alias, or the first one when `alias_stack` has a single entry. -/
def lastAlias (a0 : String) (rest : List (String × Seg)) : String :=
  match rest.getLast? with
  | some p => p.1
  | none => a0

/-- `SQLerAnyExpression.__init__`: compile an `any()` chain into a single
EXISTS with one `json_each` per mark.  `none` models the exceptions the
source raises on an empty alias stack (`array_keys[0]`), an empty path
(`path[-1]`), or `path.index` not finding the first marked key. -/
def mkAnyExpression (path : List Seg) (stack : List (String × Seg))
    (op : String) (val : JValue) : Option SQLerExpression :=
  match stack, path.getLast? with
  | (a0, k0) :: rest, some lastField =>
    match path.findIdx? (fun s => s = k0) with
    | none => none
    | some idx0 =>
      let base := path.take idx0
      let baseJson :=
        "$" ++ String.join ((base ++ [k0]).map (fun p => "." ++ segRaw p))
      let firstJoin :=
        "json_each(json_extract(data, '" ++ baseJson ++ "')) AS " ++ a0
      let fromJoin := pyJoinList " JOIN " (firstJoin :: restJoins a0 rest)
      let whereS :=
        "json_extract(" ++ lastAlias a0 rest ++ ".value, '$."
          ++ segRaw lastField ++ "') " ++ op ++ " ?"
      some ⟨"EXISTS (SELECT 1 FROM " ++ fromJoin ++ " WHERE " ++ whereS
              ++ ")", [val]⟩
  | _, _ => none

namespace SQLerField

/-- `_SQLerField__compare`: an `any()` chain goes through
`SQLerAnyExpression`, a plain path through a direct `JSON_EXTRACT`. -/
def compareOp (f : SQLerField) (op : String) (val : JValue) :
    Option SQLerExpression :=
  if f.aliasStack ≠ [] then mkAnyExpression f.path f.aliasStack op val
  else
    some ⟨"JSON_EXTRACT(data, '" ++ jsonPathOf f.path ++ "') " ++ op ++ " ?",
          [val]⟩

/-- `isin`: membership via `json_each`; the empty value list yields the
literal-false expression `0` with no parameters. -/
def isin (f : SQLerField) (values : List JValue) : SQLerExpression :=
  match values with
  | [] => ⟨"0", []⟩
  | _ =>
    let placeholders := pyJoinList ", " (values.map (fun _ => "?"))
    ⟨"EXISTS (SELECT 1 FROM json_each(data, '" ++ jsonPathOf f.path
        ++ "') WHERE json_each.value IN (" ++ placeholders ++ "))",
     values⟩

end SQLerField

/-! ## SQLite WHERE semantics (for the empty-`isin` claim) -/

/-- Modelled from the spec: SQLite truthiness of a WHERE-clause value —
NULL and the integer 0 are false, a non-zero integer is true (§4.4 fixes
the literal-false expression `0`; the engine itself is out of scope and
only the fragments the proxy emits are given a meaning here). -/
def sqliteTruthy : JValue → Bool
  | .null => false
  | .bool b => b
  | .int i => i ≠ 0
  | _ => false

/-- Modelled from the spec: a SELECT keeps exactly the rows on which the
WHERE clause evaluates truthy. -/
def runWhere (rows : List (Int × Obj)) (denote : Int × Obj → JValue) :
    List (Int × Obj) :=
  rows.filter (fun r => sqliteTruthy (denote r))

/-- Modelled from the spec: the parameterless WHERE fragment `0` denotes
the integer constant 0 on every row. -/
def denoteLiteralZero : Int × Obj → JValue := fun _ => JValue.int 0

/-! ## Document store — `src/sqler/db/sqler_db.py`

The SQLite engine state of one table is its `(id, payload)` rows together
with the `sqlite_sequence` counter of the AUTOINCREMENT primary key. -/

/-- One table: `(_id INTEGER PRIMARY KEY AUTOINCREMENT, data JSON)` rows
plus the table's `sqlite_sequence` value. -/
structure Table where
  rows : List (Int × Obj)
  seq : Int

instance : Inhabited Table := ⟨⟨[], 0⟩⟩

/-- The `_id` column of a row list. -/
def keysOf (rows : List (Int × Obj)) : List Int := rows.map (·.1)

/-- Modelled SQLite `SELECT COALESCE(MAX(_id), 0)`.  AUTOINCREMENT ids are
always ≥ 1, so folding `max` from 0 agrees with the engine. -/
def maxKey (rows : List (Int × Obj)) : Int := (keysOf rows).foldl max 0

/-- Modelled SQLite `SELECT MAX(_id)`: NULL on an empty table. -/
def maxKeyOpt (rows : List (Int × Obj)) : Option Int :=
  if rows.isEmpty then none else some (maxKey rows)

/-- Modelled SQLite semantics of inserting with a NULL id into an
AUTOINCREMENT table: the fresh id is one more than the larger of the
sequence counter and the current maximum id, and the sequence advances. -/
def insertAuto (t : Table) (doc : Obj) : Table × Int :=
  let newId := max t.seq (maxKey t.rows) + 1
  (⟨t.rows ++ [(newId, doc)], newId⟩, newId)

/-- Modelled SQLite `UPDATE ... SET data = ? WHERE _id = ?`: rewrite the
matching rows; zero matches is a silent no-op, never an error. -/
def updateRow (rows : List (Int × Obj)) (i : Int) (doc : Obj) :
    List (Int × Obj) :=
  rows.map (fun r => if r.1 = i then (i, doc) else r)

/-- `insert_document`: insert and return the new id. -/
def insertDocument (t : Table) (doc : Obj) : Table × Int :=
  insertAuto t doc

/-- `upsert_document`: insert when the id is absent, otherwise run the
UPDATE by id and return the id unchanged. -/
def upsertDocument (t : Table) (id? : Option Int) (doc : Obj) :
    Table × Int :=
  match id? with
  | none => insertDocument t doc
  | some i => (⟨updateRow t.rows i doc, t.seq⟩, i)

/-- `find_document`: the parsed payload with `_id` re-attached, or
`none`. -/
def findDocument (t : Table) (i : Int) : Option Obj :=
  (t.rows.find? (fun r => r.1 = i)).map
    (fun r => objSet r.2 "_id" (JValue.int r.1))

/-- One input dict of `bulk_upsert`: `id?` is the dict's `_id` entry
(`none` both for a missing key and an explicit `None`, exactly the cases
`doc.get("_id") is None` treats as new), `fields` the remaining
entries (the code strips `_id` before serializing). -/
structure BDoc where
  id? : Option Int
  fields : Obj

/-- Modelled SQLite semantics of one parameter row of
`INSERT INTO t (_id, data) VALUES (?, json(?)) ON CONFLICT(_id) DO UPDATE
SET data = excluded.data`: a NULL id autoincrements, an existing id
updates in place, a fresh explicit id inserts and advances the
sequence. -/
def upsertRow (t : Table) (d : BDoc) : Table :=
  match d.id? with
  | none => (insertAuto t d.fields).1
  | some i =>
    if (t.rows.find? (fun r => r.1 = i)).isSome then
      ⟨updateRow t.rows i d.fields, t.seq⟩
    else ⟨t.rows ++ [(i, d.fields)], max t.seq i⟩

/-- The `executemany` batch of `bulk_upsert`, in input order. -/
def runBatch (t : Table) (docs : List BDoc) : Table :=
  docs.foldl upsertRow t

/-- `len(new_docs)`: the number of input docs lacking an id. -/
def countNew (docs : List BDoc) : Nat :=
  (docs.filter (fun d => d.id?.isNone)).length

/-- The returned id list of `bulk_upsert`: docs with an id keep it; the
k-th id-less doc receives `base + k` (the zip of `new_docs` against
`range(max_id_before + 1, max_id_after + 1)`). -/
def assignIds : List BDoc → Int → List (Option Int)
  | [], _ => []
  | d :: ds, base =>
    match d.id? with
    | some i => some i :: assignIds ds base
    | none => some (base + 1) :: assignIds ds (base + 1)

/-- `bulk_upsert`: read `COALESCE(MAX(_id), 0)`, run the batch inside one
scoped acquisition, read `MAX(_id)`, and — only when at least one doc
lacked an id — assert that the id-range grew by exactly the number of new
docs and distribute the new ids sequentially.  `Except.error` is the
`AssertionError` (or the `TypeError` a NULL `MAX(_id)` would raise). -/
def bulkUpsert (t : Table) (docs : List BDoc) :
    Except String (Table × List (Option Int)) :=
  let maxBefore := maxKey t.rows
  let t1 := runBatch t docs
  if countNew docs ≠ 0 then
    match maxKeyOpt t1.rows with
    | none => .error "TypeError"
    | some maxAfter =>
      if maxAfter - maxBefore = (countNew docs : Int) then
        .ok (t1, assignIds docs maxBefore)
      else .error "Mismatch in _id assignment count"
  else .ok (t1, docs.map (·.id?))

/-! ## Versioned store and optimistic locking — `src/sqler/models/safe.py` -/

/-- A row of a versioned table: `(_id, data, _version)`. -/
structure VRow where
  id : Int
  payload : Obj
  version : Int

/-- A versioned table plus its AUTOINCREMENT sequence. -/
structure VTable where
  rows : List VRow
  seq : Int

/-- Modelled from the spec: `upsert_with_version` is declared only through
its callers under `src/` (no definition ships in this snapshot); §4.2
fixes it — insert at version 0 for new rows, otherwise
`UPDATE ... SET data = ?, _version = _version + 1 WHERE id = ? AND
_version = ?`, raising *stale version* when `rowcount = 0`.  The result
pairs the table state after the statement with the returned
`(id, new_version)` or the raised error. -/
def upsertWithVersion (t : VTable) (id? : Option Int) (doc : Obj)
    (expected : Int) : VTable × Except String (Int × Int) :=
  match id? with
  | none =>
    let newId := max t.seq ((t.rows.map (·.id)).foldl max 0) + 1
    (⟨t.rows ++ [⟨newId, doc, 0⟩], newId⟩, .ok (newId, 0))
  | some i =>
    let matched :=
      (t.rows.filter (fun r => r.id = i ∧ r.version = expected)).length
    let newRows :=
      t.rows.map (fun r =>
        if r.id = i ∧ r.version = expected then ⟨i, doc, r.version + 1⟩
        else r)
    if matched = 0 then (⟨newRows, t.seq⟩, .error "stale version")
    else (⟨newRows, t.seq⟩, .ok (i, expected + 1))

/-- A versioned record instance: bound id, in-memory `_version`, and the
payload `_dump_with_relations` produced. -/
structure SafeInstance where
  id? : Option Int
  version : Int
  payload : Obj

/-- `SQLerSafeModel.save` (src/sqler/models/safe.py lines 73–139) with the
`SQLER_JIT_VERSION` / `SQLER_RETRY_ON_STALE` toggles unset and no storage
lock contention: the retry loop performs exactly one
`upsert_with_version` attempt; on success `_id` and `_version` are
updated from the result, and a stale-version `RuntimeError` is re-raised
as `StaleVersionError`. -/
def saveSafe (t : VTable) (inst : SafeInstance) :
    VTable × Except String SafeInstance :=
  let out := upsertWithVersion t inst.id? inst.payload inst.version
  (out.1, out.2.map (fun p => ⟨some p.1, p.2, inst.payload⟩))

/-- The stored `_version` of row `i`. -/
def versionOf (t : VTable) (i : Int) : Option Int :=
  (t.rows.find? (fun r => r.id = i)).map (·.version)

/-! ## Reference detection and resolution — `src/sqler/models/model.py` -/

/-- `SQLerModel._is_ref_dict`: `isinstance(value, dict) and "_table" in
value and "_id" in value`. -/
def isRefDict : JValue → Bool
  | .obj kvs => objHasKey kvs "_table" && objHasKey kvs "_id"
  | _ => false

/-- The process environment the resolver runs in: the database (table
name → rows), the registry (tables with a registered model type — every
registered type is an `SQLerModel` subclass, so each behaves uniformly),
and the pydantic `model_validate` oracle (`false` means validation
raises). -/
structure Env where
  db : List (String × List (Int × Obj))
  reg : List String
  valid : String → Obj → Bool

/-- `find_document` against a named table of the environment, with a
reference id taken from a payload: only an integer id can match a row
(the `_id` column is an INTEGER key; the model does not reproduce
SQLite's affinity coercion of non-integer parameters, which the claims
never exercise). -/
def findDocRaw (db : List (String × List (Int × Obj))) (table : String)
    (rid : JValue) : Option (Int × Obj) :=
  match (db.find? (fun p => p.1 = table)).map (·.2) with
  | none => none
  | some rows =>
    match rid with
    | .int n => rows.find? (fun r => r.1 = n)
    | _ => none

/-- The `decode` closure of `SQLerModel._resolve_relations`.  A ref dict
whose `_table` is a registered string resolves through `from_id` (inlined
here: fetch the row, recursively resolve its payload with `_id`
attached, validate); `from_id` returning `None` (missing row) decodes to
`null`, a validation exception is caught and the dict preserved.  Any
other dict or list recurses; scalars pass through.  The fuel bounds the
recursion depth (the source recursion is unbounded; every theorem
supplies sufficient fuel, and fuel 0 leaves the value untouched). -/
def decodeV (E : Env) : Nat → JValue → JValue
  | 0, v => v
  | fuel + 1, v =>
    match v with
    | .obj kvs =>
      if isRefDict (.obj kvs) then
        match objGet kvs "_table" with
        | some (.str s) =>
          if E.reg.contains s then
            match findDocRaw E.db s ((objGet kvs "_id").getD .null) with
            | none => .null
            | some r =>
              let doc := objSet r.2 "_id" (.int r.1)
              let resolved := doc.map (fun p => (p.1, decodeV E fuel p.2))
              if E.valid s resolved then .obj resolved else .obj kvs
          else .obj (kvs.map (fun p => (p.1, decodeV E fuel p.2)))
        | _ => .obj (kvs.map (fun p => (p.1, decodeV E fuel p.2)))
      else .obj (kvs.map (fun p => (p.1, decodeV E fuel p.2)))
    | .arr xs => .arr (xs.map (decodeV E fuel))
    | x => x

/-- `SQLerModel._resolve_relations`: decode every top-level value. -/
def resolveRelations (E : Env) (fuel : Nat) (doc : Obj) : Obj :=
  doc.map (fun p => (p.1, decodeV E fuel p.2))

/-- `SQLerModel.from_id`: fetch the document, resolve relations, validate
(`Except.error ()` is a raised validation error), return the instance —
represented by its resolved document with `_id` attached — or `none` when
no row exists. -/
def fromId (E : Env) (fuel : Nat) (table : String) (rid : JValue) :
    Except Unit (Option JValue) :=
  match findDocRaw E.db table rid with
  | none => .ok none
  | some r =>
    let doc := objSet r.2 "_id" (JValue.int r.1)
    let resolved := resolveRelations E fuel doc
    if E.valid table resolved then .ok (some (.obj resolved))
    else .error ()

/-! ## Helper lemmas -/

/-- An UPDATE by id touching no row leaves the row list unchanged. -/
theorem updateRow_no_match (rows : List (Int × Obj)) (i : Int) (d : Obj)
    (h : ∀ r ∈ rows, r.1 ≠ i) : updateRow rows i d = rows := by
  induction rows with
  | nil => rfl
  | cons a tl ih =>
    have ha := h a (List.mem_cons_self a tl)
    simp only [updateRow, List.map_cons] at *
    rw [if_neg ha]
    exact congrArg (a :: ·) (ih fun r hr => h r (List.mem_cons_of_mem a hr))

/-- Reading an index below the old length after appending one element. -/
theorem getD_append_lt (σ : List SQLerQuery) (x : SQLerQuery) (i : Nat)
    (h : i < σ.length) : (σ ++ [x]).getD i default = σ.getD i default := by
  unfold List.getD
  rw [List.get?_eq_getElem?, List.get?_eq_getElem?,
    List.getElem?_append_left h]

/-- `countNew` over a cons. -/
theorem countNew_cons (d : BDoc) (ds : List BDoc) :
    countNew (d :: ds) = (if d.id?.isNone then 1 else 0) + countNew ds := by
  cases hd : d.id?
  · simp [countNew, List.filter_cons, hd]
    omega
  · simp [countNew, List.filter_cons, hd]

/-- An UPDATE by id does not change the id column. -/
theorem keysOf_updateRow (rows : List (Int × Obj)) (i : Int) (d : Obj) :
    keysOf (updateRow rows i d) = keysOf rows := by
  induction rows with
  | nil => rfl
  | cons a tl ih =>
    simp only [updateRow, keysOf, List.map_cons] at *
    by_cases ha : a.1 = i
    · rw [if_pos ha, ha]
      exact congrArg (i :: ·) ih
    · rw [if_neg ha]
      exact congrArg (a.1 :: ·) ih

/-- An UPDATE by id does not change `COALESCE(MAX(_id), 0)`. -/
theorem maxKey_updateRow (rows : List (Int × Obj)) (i : Int) (d : Obj) :
    maxKey (updateRow rows i d) = maxKey rows := by
  unfold maxKey
  rw [keysOf_updateRow]

/-- Appending one row pushes `COALESCE(MAX(_id), 0)` to the max. -/
theorem maxKey_append (rows : List (Int × Obj)) (x : Int × Obj) :
    maxKey (rows ++ [x]) = max (maxKey rows) x.1 := by
  unfold maxKey keysOf
  rw [List.map_append, List.foldl_append]
  rfl

/-- Row ids are exactly the members of the id column. -/
theorem keyMem_iff (rows : List (Int × Obj)) (j : Int) :
    j ∈ keysOf rows ↔ ∃ r ∈ rows, r.1 = j := by
  simp [keysOf, List.mem_map]

/-- The batch invariant of `bulk_upsert`: when the sequence counter does
not exceed the current max id and every explicit doc id hits an existing
row, the batch grows the max id and the row count by exactly the number
of id-less docs, and keeps the sequence bounded by the max id. -/
theorem runBatch_spec (docs : List BDoc) : ∀ t : Table,
    t.seq ≤ maxKey t.rows →
    (∀ d ∈ docs, ∀ i, d.id? = some i → i ∈ keysOf t.rows) →
    maxKey (runBatch t docs).rows = maxKey t.rows + (countNew docs : Int)
    ∧ (runBatch t docs).seq ≤ maxKey (runBatch t docs).rows
    ∧ (runBatch t docs).rows.length = t.rows.length + countNew docs := by
  induction docs with
  | nil =>
    intro t hseq _
    refine ⟨by simp [runBatch, countNew], by simpa [runBatch] using hseq,
      by simp [runBatch, countNew]⟩
  | cons d ds ih =>
    intro t hseq hids
    have hstep : runBatch t (d :: ds) = runBatch (upsertRow t d) ds := rfl
    cases hd : d.id? with
    | some i =>
      have hex : ∃ r ∈ t.rows, r.1 = i :=
        (keyMem_iff t.rows i).mp (hids d (List.mem_cons_self d ds) i hd)
      have hfind : (t.rows.find? (fun r => r.1 = i)).isSome := by
        rw [List.find?_isSome]
        obtain ⟨r, hr, hri⟩ := hex
        exact ⟨r, hr, by simp [hri]⟩
      have hup : upsertRow t d = ⟨updateRow t.rows i d.fields, t.seq⟩ := by
        simp [upsertRow, hd, hfind]
      have hkeys : keysOf (upsertRow t d).rows = keysOf t.rows := by
        rw [hup]
        exact keysOf_updateRow t.rows i d.fields
      have hmax : maxKey (upsertRow t d).rows = maxKey t.rows := by
        unfold maxKey
        rw [hkeys]
      have hlen : (upsertRow t d).rows.length = t.rows.length := by
        rw [hup]
        simp [updateRow]
      have hseq' : (upsertRow t d).seq ≤ maxKey (upsertRow t d).rows := by
        rw [hup]
        show t.seq ≤ maxKey (updateRow t.rows i d.fields)
        rw [maxKey_updateRow]
        exact hseq
      have hids' : ∀ e ∈ ds, ∀ j, e.id? = some j
          → j ∈ keysOf (upsertRow t d).rows := by
        intro e he j hj
        rw [hkeys]
        exact hids e (List.mem_cons_of_mem d he) j hj
      obtain ⟨h1, h2, h3⟩ := ih (upsertRow t d) hseq' hids'
      rw [hstep]
      refine ⟨?_, h2, ?_⟩
      · rw [h1, hmax, countNew_cons, hd]
        simp
      · rw [h3, hlen, countNew_cons, hd]
        simp [Option.isNone_some]
    | none =>
      have hup : upsertRow t d = (insertAuto t d.fields).1 := by
        simp [upsertRow, hd]
      have hnewid : max t.seq (maxKey t.rows) = maxKey t.rows :=
        max_eq_right hseq
      have hrows : (upsertRow t d).rows
          = t.rows ++ [(maxKey t.rows + 1, d.fields)] := by
        rw [hup]
        simp [insertAuto, hnewid]
      have hseqeq : (upsertRow t d).seq = maxKey t.rows + 1 := by
        rw [hup]
        simp [insertAuto, hnewid]
      have hmax : maxKey (upsertRow t d).rows = maxKey t.rows + 1 := by
        rw [hrows, maxKey_append]
        exact max_eq_right (by omega)
      have hseq' : (upsertRow t d).seq ≤ maxKey (upsertRow t d).rows := by
        rw [hseqeq, hmax]
      have hids' : ∀ e ∈ ds, ∀ j, e.id? = some j
          → j ∈ keysOf (upsertRow t d).rows := by
        intro e he j hj
        rw [hrows]
        unfold keysOf
        rw [List.map_append]
        exact List.mem_append_left _ (hids e (List.mem_cons_of_mem d he) j hj)
      obtain ⟨h1, h2, h3⟩ := ih (upsertRow t d) hseq' hids'
      rw [hstep]
      refine ⟨?_, h2, ?_⟩
      · rw [h1, hmax, countNew_cons, hd]
        simp only [Option.isNone_none, if_pos]
        push_cast
        ring
      · rw [h3, hrows, countNew_cons, hd]
        simp only [Option.isNone_none, if_pos, List.length_append,
          List.length_cons, List.length_nil]
        omega

/-- Length of the returned id list. -/
theorem assignIds_length (docs : List BDoc) : ∀ base : Int,
    (assignIds docs base).length = docs.length := by
  induction docs with
  | nil => intro base; rfl
  | cons d ds ih =>
    intro base
    cases hd : d.id? <;> simp [assignIds, hd, ih]

/-- With no id-less docs the returned ids are the input ids. -/
theorem assignIds_all_explicit (docs : List BDoc) : ∀ base : Int,
    countNew docs = 0 → assignIds docs base = docs.map (·.id?) := by
  induction docs with
  | nil => intro base _; rfl
  | cons d ds ih =>
    intro base h
    rw [countNew_cons] at h
    cases hd : d.id? with
    | none => rw [hd] at h; simp at h
    | some i =>
      rw [hd] at h
      simp at h
      simp only [assignIds, hd, List.map_cons]
      rw [ih base h]

/-- Positional characterization of the returned ids: docs with an id keep
it; the k-th id-less doc receives `base + k`. -/
theorem assignIds_get (docs : List BDoc) : ∀ (base : Int) (j : Nat)
    (d : BDoc), docs.get? j = some d →
    (assignIds docs base).get? j
      = some (match d.id? with
              | some i => some i
              | none =>
                  some (base + (countNew (docs.take (j + 1)) : Int))) := by
  induction docs with
  | nil => intro base j d h; simp at h
  | cons e ds ih =>
    intro base j d h
    cases j with
    | zero =>
      have hde : d = e := by
        simp only [List.get?_cons_zero, Option.some_inj] at h
        exact h.symm
      subst hde
      cases hd : d.id? with
      | some i => simp [assignIds, hd]
      | none =>
        simp [assignIds, hd, countNew_cons, countNew]
    | succ j' =>
      simp only [List.get?_cons_succ] at h
      cases he : e.id? with
      | some i =>
        simp only [assignIds, he, List.get?_cons_succ]
        rw [ih base j' d h]
        have : countNew ((e :: ds).take (j' + 1 + 1))
            = countNew (ds.take (j' + 1)) := by
          simp [List.take, countNew_cons, he]
        rw [this]
      | none =>
        simp only [assignIds, he, List.get?_cons_succ]
        rw [ih (base + 1) j' d h]
        have : countNew ((e :: ds).take (j' + 1 + 1))
            = countNew (ds.take (j' + 1)) + 1 := by
          simp [List.take, countNew_cons, he]
          omega
        rw [this]
        cases d.id? with
        | some i => rfl
        | none =>
          simp only [Option.some_inj]
          push_cast
          ring

/-- A CAS UPDATE matching no row leaves the versioned rows unchanged. -/
theorem vupdate_no_match (rows : List VRow) (i v : Int) (doc : Obj)
    (h : ∀ r ∈ rows, ¬(r.id = i ∧ r.version = v)) :
    rows.map (fun r =>
        if r.id = i ∧ r.version = v then ⟨i, doc, r.version + 1⟩ else r)
      = rows := by
  induction rows with
  | nil => rfl
  | cons a tl ih =>
    rw [List.map_cons, if_neg (h a (List.mem_cons_self a tl))]
    exact congrArg (a :: ·)
      (ih fun r hr => h r (List.mem_cons_of_mem a hr))

/-- After a CAS UPDATE that matched, the (unique, by id-Nodup) row with
the written id carries the incremented version. -/
theorem find_version_update (rows : List VRow) (i v : Int) (doc : Obj) :
    (rows.map (·.id)).Nodup →
    (∃ r ∈ rows, r.id = i ∧ r.version = v) →
    ((rows.map (fun r => if r.id = i ∧ r.version = v
        then ⟨i, doc, r.version + 1⟩ else r)).find?
      (fun r => r.id = i)).map (·.version) = some (v + 1) := by
  induction rows with
  | nil =>
    intro _ h
    simp at h
  | cons a tl ih =>
    intro hnd hmem
    rw [List.map_cons] at hnd
    have hnd1 : a.id ∉ tl.map (·.id) := (List.nodup_cons.mp hnd).1
    have hnd2 := (List.nodup_cons.mp hnd).2
    rw [List.map_cons]
    by_cases ha : a.id = i ∧ a.version = v
    · rw [if_pos ha]
      rw [List.find?_cons_of_pos _ (by simp)]
      simp [ha.2]
    · rw [if_neg ha]
      by_cases hai : a.id = i
      · exfalso
        obtain ⟨r, hr, hri, hrv⟩ := hmem
        rcases List.mem_cons.mp hr with rfl | hrtl
        · exact ha ⟨hri, hrv⟩
        · apply hnd1
          rw [hai, ← hri]
          exact List.mem_map_of_mem _ hrtl
      · rw [List.find?_cons_of_neg _ (by simp [hai])]
        apply ih hnd2
        obtain ⟨r, hr, hri, hrv⟩ := hmem
        rcases List.mem_cons.mp hr with rfl | hrtl
        · exact absurd hri hai
        · exact ⟨r, hrtl, hri, hrv⟩

/-! ## Claim theorems -/

/-- C3: for all expressions `a` and `b`, `a & b` yields the SQL
`(a.sql) AND (b.sql)` with parameters `a.params ++ b.params`, `a | b`
yields `(a.sql) OR (b.sql)` with `a.params ++ b.params`, and `~a` yields
`NOT (a.sql)` with `a.params`.  Closure under the three combinators is
witnessed by the combinators' types: each returns an `SQLerExpression`. -/
theorem expression_combinator_shapes (a b : SQLerExpression) :
    ((a.andE b).sql = "(" ++ a.sql ++ ") AND (" ++ b.sql ++ ")"
      ∧ (a.andE b).params = a.params ++ b.params)
    ∧ ((a.orE b).sql = "(" ++ a.sql ++ ") OR (" ++ b.sql ++ ")"
      ∧ (a.orE b).params = a.params ++ b.params)
    ∧ (a.notE.sql = "NOT (" ++ a.sql ++ ")"
      ∧ a.notE.params = a.params) :=
  ⟨⟨rfl, rfl⟩, ⟨rfl, rfl⟩, rfl, rfl⟩

/-- C4: for every query `q` and expression `e`, `q.exclude e` returns the
very same builder value as `q.filter (~e)` — hence the same SQL text and
the same parameter list. -/
theorem exclude_eq_filter_not (q : SQLerQuery) (e : SQLerExpression) :
    q.exclude e = q.filter e.notE
    ∧ (q.exclude e).sqlOf = (q.filter e.notE).sqlOf
    ∧ (q.exclude e).paramsOf = (q.filter e.notE).paramsOf := by
  have h : q.exclude e = q.filter e.notE := by
    rcases q with ⟨t, a, eo, o, d, l⟩
    cases eo <;> rfl
  exact ⟨h, by rw [h], by rw [h]⟩

/-- C6: `field.isin []` is the literal-false expression `0` with no
parameters; filtering a fresh query by it produces `... WHERE 0`; and a
SELECT whose WHERE clause is the literal `0` keeps no row, whatever the
table contents. -/
theorem empty_isin_returns_nothing :
    (∀ f : SQLerField, f.isin [] = ⟨"0", []⟩)
    ∧ SQLerQuery.sqlOf
        (SQLerQuery.filter ⟨"items", none, none, none, false, none⟩
          (SQLerField.isin ⟨[Seg.key "type"], []⟩ []))
        = "SELECT data FROM items WHERE 0"
    ∧ (∀ rows : List (Int × Obj), runWhere rows denoteLiteralZero = []) := by
  refine ⟨fun _ => rfl, by rfl, fun rows => ?_⟩
  simp [runWhere, denoteLiteralZero, sqliteTruthy]

/-- C9: the four chaining methods are allocation-only — each returns a
freshly allocated builder (its heap index differs from the receiver's)
and the receiver's state, hence its `sql` and `params`, is bit-for-bit
unchanged. -/
theorem query_chain_purity (σ : List SQLerQuery) (i : Nat)
    (e : SQLerExpression) (f : String) (d : Bool) (n : Nat)
    (h : i < σ.length) :
    ((filterH σ i e).1.getD i default = σ.getD i default
      ∧ (filterH σ i e).2 ≠ i)
    ∧ ((excludeH σ i e).1.getD i default = σ.getD i default
      ∧ (excludeH σ i e).2 ≠ i)
    ∧ ((orderByH σ i f d).1.getD i default = σ.getD i default
      ∧ (orderByH σ i f d).2 ≠ i)
    ∧ ((limitH σ i n).1.getD i default = σ.getD i default
      ∧ (limitH σ i n).2 ≠ i)
    ∧ SQLerQuery.sqlOf ((filterH σ i e).1.getD i default)
        = SQLerQuery.sqlOf (σ.getD i default)
    ∧ SQLerQuery.paramsOf ((filterH σ i e).1.getD i default)
        = SQLerQuery.paramsOf (σ.getD i default) := by
  have hne : σ.length ≠ i := by omega
  have h₁ := getD_append_lt σ ((σ.getD i default).filter e) i h
  have h₂ := getD_append_lt σ ((σ.getD i default).exclude e) i h
  have h₃ := getD_append_lt σ ((σ.getD i default).orderBy f d) i h
  have h₄ := getD_append_lt σ ((σ.getD i default).limitTo n) i h
  exact ⟨⟨h₁, hne⟩, ⟨h₂, hne⟩, ⟨h₃, hne⟩, ⟨h₄, hne⟩,
    by rw [filterH, h₁], by rw [filterH, h₁]⟩

/-- Witness for C9 at a one-element heap. -/
theorem query_chain_purity_witness :
    0 < ([(default : SQLerQuery)] : List SQLerQuery).length
    ∧ (filterH [(default : SQLerQuery)] 0 ⟨"x = ?", [JValue.int 1]⟩).2 ≠ 0
    ∧ (filterH [(default : SQLerQuery)] 0
        ⟨"x = ?", [JValue.int 1]⟩).1.getD 0 default
        = [(default : SQLerQuery)].getD 0 default := by
  have h := query_chain_purity [(default : SQLerQuery)] 0
    ⟨"x = ?", [JValue.int 1]⟩ "name" false 3 (by simp)
  exact ⟨by simp, h.1.2, h.1.1⟩

/-- C10: upserting under a bound id that matches no row is a silent
no-op — the id is returned, the table is unchanged, and the id still
finds nothing. -/
theorem upsert_missing_id_noop (t : Table) (i : Int) (d : Obj)
    (h : findDocument t i = none) :
    upsertDocument t (some i) d = (t, i)
    ∧ findDocument (upsertDocument t (some i) d).1 i = none := by
  have hnone : t.rows.find? (fun r => r.1 = i) = none := by
    unfold findDocument at h
    cases hf : t.rows.find? (fun r => r.1 = i) with
    | none => rfl
    | some r => rw [hf] at h; simp at h
  have hmem : ∀ r ∈ t.rows, r.1 ≠ i := by
    intro r hr
    have := List.find?_eq_none.mp hnone r hr
    simpa using this
  have hupd : updateRow t.rows i d = t.rows := updateRow_no_match _ _ _ hmem
  have hmain : upsertDocument t (some i) d = (t, i) := by
    show (⟨updateRow t.rows i d, t.seq⟩, i) = (t, i)
    rw [hupd]
  refine ⟨hmain, ?_⟩
  rw [hmain]
  exact h

/-- Unfolding `decode` on a scalar two-key reference dict: registry hit
leads to the inlined `from_id` (lookup, resolve, validate), registry miss
to the generic dict recursion. -/
theorem decodeV_refdict_step (E : Env) (fuel : Nat) (s : String) (n : Int) :
    decodeV E (fuel + 1) (.obj [("_table", .str s), ("_id", .int n)])
      = if E.reg.contains s then
          match findDocRaw E.db s (.int n) with
          | none => .null
          | some r =>
            if E.valid s (resolveRelations E fuel
                (objSet r.2 "_id" (.int r.1))) then
              .obj (resolveRelations E fuel (objSet r.2 "_id" (.int r.1)))
            else .obj [("_table", .str s), ("_id", .int n)]
        else
          .obj [("_table", decodeV E fuel (.str s)),
                ("_id", decodeV E fuel (.int n))] := by
  rfl

/-- Scalar string values pass through `decode` unchanged at any fuel. -/
theorem decodeV_str (E : Env) (fuel : Nat) (s : String) :
    decodeV E fuel (.str s) = .str s := by
  cases fuel <;> rfl

/-- Scalar integer values pass through `decode` unchanged at any fuel. -/
theorem decodeV_int (E : Env) (fuel : Nat) (n : Int) :
    decodeV E fuel (.int n) = .int n := by
  cases fuel <;> rfl

/-- C5 counterexample: a dict carrying `_table` and `_id` plus an extra
key is recognized by `_is_ref_dict` and resolved through the registry —
the decoded value is the referenced record, not the recursed-into plain
dict the claim requires. -/
theorem ref_dict_extra_keys_counterexample :
    isRefDict (JValue.obj
        [("_table", JValue.str "ts"), ("_id", JValue.int 1),
         ("x", JValue.int 2)]) = true
    ∧ decodeV
        ⟨[("ts", [(1, [("a", JValue.int 5)])])], ["ts"], fun _ _ => true⟩ 3
        (JValue.obj
          [("_table", JValue.str "ts"), ("_id", JValue.int 1),
           ("x", JValue.int 2)])
        = JValue.obj [("a", JValue.int 5), ("_id", JValue.int 1)]
    ∧ JValue.obj [("a", JValue.int 5), ("_id", JValue.int 1)]
        ≠ JValue.obj
            [("_table", JValue.str "ts"), ("_id", JValue.int 1),
             ("x", JValue.int 2)] := by
  refine ⟨rfl, rfl, ?_⟩
  simp

/-- C5 (amended): a value is treated as a reference dict exactly when it
is a dict containing the key `_table` and the key `_id` — extra keys are
allowed and the values at the reserved keys are unconstrained; no
non-dict value is a reference. -/
theorem ref_dict_characterization :
    (∀ kvs : Obj, isRefDict (.obj kvs) = true
      ↔ (∃ p ∈ kvs, p.1 = "_table") ∧ (∃ p ∈ kvs, p.1 = "_id"))
    ∧ isRefDict .null = false
    ∧ (∀ b, isRefDict (.bool b) = false)
    ∧ (∀ i, isRefDict (.int i) = false)
    ∧ (∀ s, isRefDict (.str s) = false)
    ∧ (∀ xs, isRefDict (.arr xs) = false) := by
  refine ⟨fun kvs => ?_, rfl, fun _ => rfl, fun _ => rfl, fun _ => rfl,
    fun _ => rfl⟩
  simp [isRefDict, objHasKey, List.any_eq_true]

/-- C2 counterexample: with the table `users` registered and row 7
absent, loading `as` row 1 — whose payload holds the reference
`(_table users, _id 7)` — replaces the broken-reference subtree with
`null` (the inner `from_id` returns `None` without raising), not with the
preserved raw reference dict. -/
theorem broken_ref_replaced_by_null_counterexample :
    findDocRaw
        [("as", [(1, [("ref",
            JValue.obj [("_table", JValue.str "users"),
                        ("_id", JValue.int 7)])])]),
         ("users", [])]
        "users" (JValue.int 7) = none
    ∧ fromId
        ⟨[("as", [(1, [("ref",
            JValue.obj [("_table", JValue.str "users"),
                        ("_id", JValue.int 7)])])]),
          ("users", [])],
         ["as", "users"], fun _ _ => true⟩
        5 "as" (JValue.int 1)
        = .ok (some (JValue.obj [("ref", JValue.null),
                                 ("_id", JValue.int 1)]))
    ∧ JValue.null
        ≠ JValue.obj [("_table", JValue.str "users"),
                      ("_id", JValue.int 7)] := by
  refine ⟨rfl, rfl, ?_⟩
  simp

/-- C2 (amended): for a scalar reference dict `(_table s, _id n)` —
(a) when `s` has no registered type the subtree is preserved verbatim;
(b) when `s` is registered but no row `n` exists, `from_id` returns
`None` and the subtree is replaced by `null`;
(c) when the row exists but validation inside `from_id` raises, the
exception is caught and the subtree preserved.  `decode` is a total
function into `JValue`, so resolution never raises out of load. -/
theorem broken_ref_resolution_behavior (E : Env) (s : String) (n : Int)
    (fuel : Nat) :
    (E.reg.contains s = false →
      ∀ fl, decodeV E fl
          (.obj [("_table", .str s), ("_id", .int n)])
        = .obj [("_table", .str s), ("_id", .int n)])
    ∧ (E.reg.contains s = true →
       findDocRaw E.db s (.int n) = none →
       decodeV E (fuel + 1) (.obj [("_table", .str s), ("_id", .int n)])
         = .null)
    ∧ (∀ r, E.reg.contains s = true →
       findDocRaw E.db s (.int n) = some r →
       E.valid s (resolveRelations E fuel
         (objSet r.2 "_id" (.int r.1))) = false →
       decodeV E (fuel + 1) (.obj [("_table", .str s), ("_id", .int n)])
         = .obj [("_table", .str s), ("_id", .int n)]) := by
  refine ⟨fun hreg fl => ?_, fun hreg hfind => ?_, fun r hreg hfind hval => ?_⟩
  · cases fl with
    | zero => rfl
    | succ m =>
      rw [decodeV_refdict_step, hreg]
      simp [decodeV_str, decodeV_int]
  · rw [decodeV_refdict_step, hreg, hfind]
    simp
  · rw [decodeV_refdict_step, hreg, hfind]
    simp [hval]

/-- Witness for C2 (amended), exercising the registered-but-missing-row
case on a concrete environment. -/
theorem broken_ref_resolution_behavior_witness :
    (["users"] : List String).contains "users" = true
    ∧ findDocRaw [("users", [])] "users" (JValue.int 7) = none
    ∧ decodeV ⟨[("users", [])], ["users"], fun _ _ => true⟩ 1
        (.obj [("_table", .str "users"), ("_id", .int 7)]) = .null := by
  refine ⟨rfl, rfl, ?_⟩
  exact (broken_ref_resolution_behavior
    ⟨[("users", [])], ["users"], fun _ _ => true⟩ "users" 7 0).2.1 rfl rfl

/-- Dotted JSON path used by the spec's §4.4 EXISTS template:
`$` followed by `.segment` for every segment (this is the raw rendering
`SQLerAnyExpression` applies; indices also render with a dot). -/
def dotPath (l : List Seg) : String :=
  "$" ++ String.join (l.map (fun p => "." ++ segRaw p))

/-- Spec-side FROM anchor of the EXISTS template:
`json_each(json_extract(data, '<basePath>')) AS <alias>`. -/
def specFirstFrom (basePath : String) (a0 : String) : String :=
  "json_each(json_extract(data, '" ++ basePath ++ "')) AS " ++ a0

/-- Spec-side JOIN text: one clause per subsequent `any()`, each bound to
the previous alias's `value`. -/
def specJoins (prev : String) : List (String × Seg) → String
  | [] => ""
  | (al, k) :: tl => " JOIN " ++ joinClause prev k al ++ specJoins al tl

/-- Spec-side WHERE text: the operator applied to
`json_extract(<lastAlias>.value, '$.<terminal>')` with one placeholder. -/
def specWhere (lastAl : String) (term : Seg) (op : String) : String :=
  "json_extract(" ++ lastAl ++ ".value, '$." ++ segRaw term ++ "') "
    ++ op ++ " ?"

/-- String append is associative. -/
theorem strAppend_assoc : ∀ a b c : String, a ++ b ++ c = a ++ (b ++ c)
  | ⟨xs⟩, ⟨ys⟩, ⟨zs⟩ => congrArg String.mk (List.append_assoc xs ys zs)

/-- Joining the first FROM clause with the loop-built JOIN list equals the
first clause followed by the spec-side JOIN text. -/
theorem pyJoin_restJoins (rest : List (String × Seg)) :
    ∀ (first a0 : String),
      pyJoinList " JOIN " (first :: restJoins a0 rest)
        = first ++ specJoins a0 rest := by
  induction rest with
  | nil =>
    intro first a0
    show first = first ++ ""
    exact (congrArg String.mk (List.append_nil first.data)).symm
  | cons p tl ih =>
    intro first a0
    obtain ⟨al, k⟩ := p
    show first ++ " JOIN "
        ++ pyJoinList " JOIN " (joinClause a0 k al :: restJoins al tl)
      = first ++ (" JOIN " ++ joinClause a0 k al ++ specJoins al tl)
    rw [ih (joinClause a0 k al) al]
    simp only [strAppend_assoc]

/-- C7 counterexample: mark the second of two identically named segments
with `any()`.  `path.index` finds the first occurrence of the name, so
the compiled FROM anchors on `$.x` instead of the claim's
path-up-to-the-marked-array `$.x.x`. -/
theorem any_chain_first_occurrence_counterexample :
    SQLerField.anyM ⟨[Seg.key "x", Seg.key "x"], []⟩
      = some ⟨[Seg.key "x", Seg.key "x"], [("a", Seg.key "x")]⟩
    ∧ SQLerField.compareOp
        ⟨[Seg.key "x", Seg.key "x", Seg.key "v"], [("a", Seg.key "x")]⟩
        "=" (JValue.int 1)
      = some ⟨"EXISTS (SELECT 1 FROM json_each(json_extract(data, '$.x'))"
          ++ " AS a WHERE json_extract(a.value, '$.v') = ?)",
          [JValue.int 1]⟩
    ∧ ("EXISTS (SELECT 1 FROM json_each(json_extract(data, '$.x'))"
          ++ " AS a WHERE json_extract(a.value, '$.v') = ?)" : String)
      ≠ "EXISTS (SELECT 1 FROM json_each(json_extract(data, '$.x.x'))"
          ++ " AS a WHERE json_extract(a.value, '$.v') = ?)" := by
  refine ⟨rfl, rfl, by decide⟩

/-- C7 (amended): `any()` number `i+1` in a chain allocates the fresh
alias `chr(ord('a') + i)`; a comparison on a marked chain compiles to one
EXISTS whose FROM is `json_each` over `json_extract(data, <path cut at
the first occurrence of the first marked key's name, inclusive>)` under
the first alias, followed by one JOIN per later mark bound to the
previous alias's `value`, whose WHERE applies the operator to
`json_extract(<last alias>.value, '$.<final path segment>')`, and whose
parameter list is exactly the one comparison value. -/
theorem any_chain_compilation (f : SQLerField) (last0 : Seg)
    (path : List Seg) (a0 : String) (k0 : Seg)
    (rest : List (String × Seg)) (op : String) (val : JValue)
    (idx0 : Nat) (last : Seg)
    (hl : f.path.getLast? = some last0)
    (hfind : path.findIdx? (fun s => s = k0) = some idx0)
    (hlast : path.getLast? = some last) :
    f.anyM = some ⟨f.path, f.aliasStack
        ++ [(String.singleton (Char.ofNat (97 + f.aliasStack.length)),
             last0)]⟩
    ∧ mkAnyExpression path ((a0, k0) :: rest) op val
      = some ⟨"EXISTS (SELECT 1 FROM "
          ++ (specFirstFrom (dotPath (path.take idx0 ++ [k0])) a0
              ++ specJoins a0 rest)
          ++ " WHERE " ++ specWhere (lastAlias a0 rest) last op ++ ")",
          [val]⟩ := by
  constructor
  · unfold SQLerField.anyM
    rw [hl]
    rfl
  · simp only [mkAnyExpression, hlast, hfind]
    rw [pyJoin_restJoins]
    rfl

/-- Witness for C7 (amended) on the two-level chain
`level1[].arr2[].score > 50` and the single-mark field `arr[]`. -/
theorem any_chain_compilation_witness :
    ([Seg.key "arr"] : List Seg).getLast? = some (Seg.key "arr")
    ∧ ([Seg.key "level1", Seg.key "arr2", Seg.key "score"]
        : List Seg).findIdx? (fun s => s = Seg.key "level1") = some 0
    ∧ SQLerField.anyM ⟨[Seg.key "arr"], []⟩
      = some ⟨[Seg.key "arr"], [("a", Seg.key "arr")]⟩
    ∧ mkAnyExpression [Seg.key "level1", Seg.key "arr2", Seg.key "score"]
        [("a", Seg.key "level1"), ("b", Seg.key "arr2")] ">"
        (JValue.int 50)
      = some ⟨"EXISTS (SELECT 1 FROM "
          ++ (specFirstFrom (dotPath [Seg.key "level1"]) "a"
              ++ specJoins "a" [("b", Seg.key "arr2")])
          ++ " WHERE "
          ++ specWhere (lastAlias "a" [("b", Seg.key "arr2")])
              (Seg.key "score") ">" ++ ")",
          [JValue.int 50]⟩ := by
  have h := any_chain_compilation ⟨[Seg.key "arr"], []⟩ (Seg.key "arr")
    [Seg.key "level1", Seg.key "arr2", Seg.key "score"] "a"
    (Seg.key "level1") [("b", Seg.key "arr2")] ">" (JValue.int 50) 0
    (Seg.key "score") rfl rfl rfl
  exact ⟨rfl, rfl, h.1, h.2⟩

/-- C8 counterexample: a batch whose only doc carries an explicit fresh
id.  No doc lacks an id, so the source skips the assertion entirely and
succeeds, although the id range grew by 95 while zero docs lacked an
id — the claim's unconditional assert would have failed this run. -/
theorem bulk_upsert_no_assert_counterexample :
    bulkUpsert ⟨[(5, [("a", JValue.int 1)])], 5⟩
        [⟨some 100, [("b", JValue.int 2)]⟩]
      = .ok (⟨[(5, [("a", JValue.int 1)]), (100, [("b", JValue.int 2)])],
             100⟩, [some 100])
    ∧ maxKey [(5, [("a", JValue.int 1)]), (100, [("b", JValue.int 2)])]
        - maxKey [(5, [("a", JValue.int 1)])]
      ≠ (countNew [⟨some 100, [("b", JValue.int 2)]⟩] : Int) := by
  exact ⟨rfl, by decide⟩

/-- C8 (amended): inside one scoped acquisition `bulk_upsert` reads
`max(id)` before and after the batch and — only when at least one doc
lacks an id — asserts that the difference equals the number of id-less
docs; docs with an id are upserted under it, the k-th id-less doc (in
input order) is assigned `max(id)-before + k`, and the returned list
preserves input order.  Hypotheses: the sequence counter does not exceed
the current max id and every explicit doc id targets an existing row —
then the batch is conflict-free, the assertion passes, and the
assignment is as described. -/
theorem bulk_upsert_assignment (t : Table) (docs : List BDoc)
    (hseq : t.seq ≤ maxKey t.rows)
    (hids : ∀ d ∈ docs, ∀ i, d.id? = some i → i ∈ keysOf t.rows) :
    bulkUpsert t docs
      = .ok (runBatch t docs, assignIds docs (maxKey t.rows))
    ∧ (assignIds docs (maxKey t.rows)).length = docs.length
    ∧ (∀ j d, docs.get? j = some d →
        (assignIds docs (maxKey t.rows)).get? j
          = some (match d.id? with
                  | some i => some i
                  | none => some (maxKey t.rows
                      + (countNew (docs.take (j + 1)) : Int)))) := by
  obtain ⟨h1, h2, h3⟩ := runBatch_spec docs t hseq hids
  refine ⟨?_, assignIds_length docs _,
    fun j d hj => assignIds_get docs _ j d hj⟩
  unfold bulkUpsert
  by_cases hc : countNew docs = 0
  · rw [if_neg (by simp [hc])]
    rw [assignIds_all_explicit docs (maxKey t.rows) hc]
  · rw [if_pos hc]
    have hne : (runBatch t docs).rows.isEmpty = false := by
      rcases hrows : (runBatch t docs).rows with _ | ⟨a, l⟩
      · rw [hrows] at h3
        simp at h3
        omega
      · rfl
    simp only [maxKeyOpt, hne, Bool.false_eq_true, if_false]
    rw [h1]
    rw [if_pos (by omega)]

/-- Witness for C8 (amended): one id-less doc and one updating doc
against a one-row table; the new doc receives id 2 and order is kept. -/
theorem bulk_upsert_assignment_witness :
    (⟨[(1, [("a", JValue.int 0)])], 1⟩ : Table).seq
      ≤ maxKey (⟨[(1, [("a", JValue.int 0)])], 1⟩ : Table).rows
    ∧ bulkUpsert ⟨[(1, [("a", JValue.int 0)])], 1⟩
        [⟨none, [("n", JValue.int 7)]⟩, ⟨some 1, [("a", JValue.int 9)]⟩]
      = .ok (runBatch ⟨[(1, [("a", JValue.int 0)])], 1⟩
          [⟨none, [("n", JValue.int 7)]⟩, ⟨some 1, [("a", JValue.int 9)]⟩],
          assignIds
            [⟨none, [("n", JValue.int 7)]⟩, ⟨some 1, [("a", JValue.int 9)]⟩]
            (maxKey [(1, [("a", JValue.int 0)])]))
    ∧ assignIds
        [⟨none, [("n", JValue.int 7)]⟩, ⟨some 1, [("a", JValue.int 9)]⟩]
        (maxKey [(1, [("a", JValue.int 0)])])
      = [some 2, some 1] := by
  have hids : ∀ d ∈ ([⟨none, [("n", JValue.int 7)]⟩,
        ⟨some 1, [("a", JValue.int 9)]⟩] : List BDoc),
      ∀ i, d.id? = some i → i ∈ keysOf [(1, [("a", JValue.int 0)])] := by
    intro d hd i hi
    simp only [List.mem_cons, List.not_mem_nil, or_false] at hd
    rcases hd with rfl | rfl
    · exact absurd hi (by simp)
    · have : i = 1 := by
        simpa using hi.symm
      subst this
      simp [keysOf]
  have h := bulk_upsert_assignment ⟨[(1, [("a", JValue.int 0)])], 1⟩
    [⟨none, [("n", JValue.int 7)]⟩, ⟨some 1, [("a", JValue.int 9)]⟩]
    (by decide) hids
  exact ⟨by decide, h.1, rfl⟩

/-- C1: with a bound id `i` and in-memory version `v` (and unique row
ids), `save` succeeds exactly when the stored row's version equals `v`;
on success the returned instance and the stored row both carry version
`v + 1`, and on a stale-version error the table is unchanged. -/
theorem safe_save_cas (t : VTable) (inst : SafeInstance) (i v : Int)
    (hid : inst.id? = some i) (hver : inst.version = v)
    (hnd : (t.rows.map (·.id)).Nodup) :
    ((∃ inst', (saveSafe t inst).2 = .ok inst')
        ↔ ∃ r ∈ t.rows, r.id = i ∧ r.version = v)
    ∧ (∀ inst', (saveSafe t inst).2 = .ok inst' →
        inst' = ⟨some i, v + 1, inst.payload⟩
        ∧ versionOf (saveSafe t inst).1 i = some (v + 1))
    ∧ (∀ e, (saveSafe t inst).2 = .error e → (saveSafe t inst).1 = t) := by
  by_cases hm : (t.rows.filter (fun r => r.id = i ∧ r.version = v)).length = 0
  · have hsave : saveSafe t inst
        = (⟨t.rows.map (fun r => if r.id = i ∧ r.version = v
              then ⟨i, inst.payload, r.version + 1⟩ else r), t.seq⟩,
           .error "stale version") := by
      unfold saveSafe upsertWithVersion
      rw [hid, hver]
      simp only [hm]
      simp [Except.map]
    have hnomatch : ∀ r ∈ t.rows, ¬(r.id = i ∧ r.version = v) := by
      intro r hr hc
      have hfil : t.rows.filter (fun r => r.id = i ∧ r.version = v) = [] :=
        List.length_eq_zero.mp hm
      have hrmem : r ∈ t.rows.filter (fun r => r.id = i ∧ r.version = v) :=
        List.mem_filter.mpr ⟨hr, by simpa using hc⟩
      rw [hfil] at hrmem
      exact absurd hrmem (List.not_mem_nil r)
    have hrows : t.rows.map (fun r => if r.id = i ∧ r.version = v
          then (⟨i, inst.payload, r.version + 1⟩ : VRow) else r) = t.rows :=
      vupdate_no_match t.rows i v inst.payload hnomatch
    refine ⟨?_, ?_, ?_⟩
    · constructor
      · rintro ⟨inst', h⟩
        rw [hsave] at h
        exact absurd h (by simp)
      · rintro ⟨r, hr, hc⟩
        exact absurd hc (hnomatch r hr)
    · intro inst' h
      rw [hsave] at h
      exact absurd h (by simp)
    · intro e _
      rw [hsave]
      show (⟨t.rows.map (fun r => if r.id = i ∧ r.version = v
          then ⟨i, inst.payload, r.version + 1⟩ else r), t.seq⟩ : VTable) = t
      rw [hrows]
  · have hsave : saveSafe t inst
        = (⟨t.rows.map (fun r => if r.id = i ∧ r.version = v
              then ⟨i, inst.payload, r.version + 1⟩ else r), t.seq⟩,
           .ok ⟨some i, v + 1, inst.payload⟩) := by
      unfold saveSafe upsertWithVersion
      rw [hid, hver]
      simp only [hm]
      simp [Except.map]
    have hex : ∃ r ∈ t.rows, r.id = i ∧ r.version = v := by
      cases hfil : t.rows.filter (fun r => r.id = i ∧ r.version = v) with
      | nil => exact absurd (by rw [hfil]; rfl) hm
      | cons r rs =>
        have hrmem : r ∈ t.rows.filter
            (fun r => r.id = i ∧ r.version = v) := by
          rw [hfil]
          exact List.mem_cons_self r rs
        have hmf := List.mem_filter.mp hrmem
        exact ⟨r, hmf.1, by simpa using hmf.2⟩
    refine ⟨?_, ?_, ?_⟩
    · exact ⟨fun _ => hex,
        fun _ => ⟨⟨some i, v + 1, inst.payload⟩, by rw [hsave]⟩⟩
    · intro inst' h
      rw [hsave] at h
      simp only [Except.ok.injEq] at h
      refine ⟨h.symm, ?_⟩
      rw [hsave]
      show ((t.rows.map (fun r => if r.id = i ∧ r.version = v
          then ⟨i, inst.payload, r.version + 1⟩ else r)).find?
            (fun r => r.id = i)).map (·.version) = some (v + 1)
      exact find_version_update t.rows i v inst.payload hnd hex
    · intro e h
      rw [hsave] at h
      exact absurd h (by simp)

/-- Witness for C1: versioned row `(id 1, version 3)`, instance at
expected version 3 — save succeeds and both versions become 4. -/
theorem safe_save_cas_witness :
    (∃ r ∈ ([⟨1, [("tier", JValue.int 1)], 3⟩] : List VRow),
        r.id = 1 ∧ r.version = 3)
    ∧ (saveSafe ⟨[⟨1, [("tier", JValue.int 1)], 3⟩], 1⟩
        ⟨some 1, 3, [("tier", JValue.int 2)]⟩).2
      = .ok ⟨some 1, 4, [("tier", JValue.int 2)]⟩
    ∧ versionOf (saveSafe ⟨[⟨1, [("tier", JValue.int 1)], 3⟩], 1⟩
        ⟨some 1, 3, [("tier", JValue.int 2)]⟩).1 1 = some 4 := by
  have h := safe_save_cas ⟨[⟨1, [("tier", JValue.int 1)], 3⟩], 1⟩
    ⟨some 1, 3, [("tier", JValue.int 2)]⟩ 1 3 rfl rfl (by simp)
  have hok : (saveSafe ⟨[⟨1, [("tier", JValue.int 1)], 3⟩], 1⟩
      ⟨some 1, 3, [("tier", JValue.int 2)]⟩).2
      = .ok ⟨some 1, 4, [("tier", JValue.int 2)]⟩ := rfl
  exact ⟨⟨⟨1, [("tier", JValue.int 1)], 3⟩,
    List.mem_singleton_self _, rfl, rfl⟩, hok, (h.2.1 _ hok).2⟩

/-- Witness for C10: a concrete one-row table and an absent id. -/
theorem upsert_missing_id_noop_witness :
    findDocument ⟨[(1, [("name", JValue.str "Ada")])], 1⟩ 2 = none
    ∧ upsertDocument ⟨[(1, [("name", JValue.str "Ada")])], 1⟩ (some 2)
        [("name", JValue.str "Bob")]
      = (⟨[(1, [("name", JValue.str "Ada")])], 1⟩, 2) := by
  have h : findDocument ⟨[(1, [("name", JValue.str "Ada")])], 1⟩ 2 = none := by
    rfl
  exact ⟨h, (upsert_missing_id_noop _ 2 _ h).1⟩

end SQLer
